import Mathlib

/-!
Verification of the SHEPHARD annotation-interchange core (si_domains.py,
si_sites.py) via a shallow embedding.  Python strings are modelled as
`List Char`, files as the list of lines returned by `readlines`, Python
dictionaries as association lists in insertion order, exceptions as an
`Except` result, and printed warnings as an accumulated list.
-/

namespace Shephard

/-- A Python string, modelled as its list of characters. -/
abbrev PyStr := List Char

/-- Characters removed by Python `str.strip()`. -/
def isPySpace (c : Char) : Bool :=
  c = ' ' || c = '\t' || c = '\n' || c = '\r' || c = '\x0b' || c = '\x0c'

/-- Python `s.strip()`: remove leading and trailing whitespace. -/
def pyStrip (s : PyStr) : PyStr :=
  ((s.dropWhile isPySpace).reverse.dropWhile isPySpace).reverse

/-- Worker for `pySplit`: `cur` holds the (reversed) characters of the token
being accumulated. -/
def pySplitAux (d : Char) (cur : PyStr) : PyStr → List PyStr
  | [] => [cur.reverse]
  | c :: rest => if c = d then cur.reverse :: pySplitAux d [] rest
                 else pySplitAux d (c :: cur) rest

/-- Python `s.split(d)` for a one-character separator `d` (the only shape the
interfaces use: the default tab, and the reserved attribute separator). -/
def pySplit (d : Char) (s : PyStr) : List PyStr := pySplitAux d [] s

/-- Numeric value of a decimal digit character. -/
def digitVal (c : Char) : Option Nat :=
  if '0' ≤ c ∧ c ≤ '9' then some (c.toNat - '0'.toNat) else none

/-- Accumulating decimal evaluation of a digit string; `none` on the first
non-digit character. -/
def digitsValAux (acc : Nat) : PyStr → Option Nat
  | [] => some acc
  | c :: rest =>
    match digitVal c with
    | some v => digitsValAux (acc * 10 + v) rest
    | none => none

/-- Value of a non-empty string of decimal digits; `none` on the empty string
or any non-digit character. -/
def digitsVal : PyStr → Option Nat
  | [] => none
  | c :: rest => digitsValAux 0 (c :: rest)

/-- Python `int(s)` on an already-stripped string: optional sign followed by
decimal digits (digit-grouping underscores are not modelled; none of the
interfaces produce them). -/
def pyInt? (s : PyStr) : Option Int :=
  match s with
  | [] => none
  | c :: rest =>
    if c = '-' then (digitsVal rest).map (fun n => -(n : Int))
    else if c = '+' then (digitsVal rest).map (fun n => (n : Int))
    else (digitsVal (c :: rest)).map (fun n => (n : Int))

/-- Magnitude part of a Python float literal: `digits`, `digits.digits`,
`digits.` or `.digits` (exponents and inf/nan are not modelled; no claim
depends on them). -/
def pyFloatMag (s : PyStr) : Option Rat :=
  match pySplit '.' s with
  | [ip] => (digitsVal ip).map (fun n => (n : Rat))
  | [ip, fp] =>
    if ip = [] ∧ fp = [] then none
    else
      match (if ip = [] then some 0 else digitsVal ip),
            (if fp = [] then some 0 else digitsVal fp) with
      | some i, some f => some ((i : Rat) + (f : Rat) / ((10 : Rat) ^ fp.length))
      | _, _ => none
  | _ => none

/-- Python `float(s)` on an already-stripped string, with the float value
modelled as an exact rational (IEEE rounding is abstracted away; no claim
depends on float arithmetic). -/
def pyFloat? (s : PyStr) : Option Rat :=
  match s with
  | [] => none
  | c :: rest =>
    if c = '-' then (pyFloatMag rest).map (fun q => -q)
    else if c = '+' then pyFloatMag rest
    else pyFloatMag (c :: rest)

/-- Decimal digit character for `n < 10`. -/
def digitChar (n : Nat) : Char := Char.ofNat (n + '0'.toNat)

/-- Fuel-indexed worker for `natDigits` (structural recursion so that the
kernel can evaluate it; the fuel is never exhausted when `n < fuel`). -/
def natDigitsAux : Nat → Nat → PyStr
  | 0, _ => []
  | fuel + 1, n =>
    if n < 10 then [digitChar n]
    else natDigitsAux fuel (n / 10) ++ [digitChar (n % 10)]

/-- Decimal digits of a natural number, most significant first
(Python `'%i' % n` / `str(n)` for `n ≥ 0`). -/
def natDigits (n : Nat) : PyStr := natDigitsAux (n + 1) n

theorem natDigitsAux_fuel :
    ∀ (f1 : Nat) (n : Nat) (f2 : Nat), n < f1 → n < f2 →
      natDigitsAux f1 n = natDigitsAux f2 n
  | 0, n, _, h1, _ => absurd h1 (Nat.not_lt_zero n)
  | _ + 1, n, 0, _, h2 => absurd h2 (Nat.not_lt_zero n)
  | f1 + 1, n, f2 + 1, h1, h2 => by
    by_cases h : n < 10
    · simp [natDigitsAux, h]
    · simp only [natDigitsAux, if_neg h]
      rw [natDigitsAux_fuel f1 (n / 10) f2 (by omega) (by omega)]

/-- One-step unfolding of `natDigits`. -/
theorem natDigits_eq (n : Nat) :
    natDigits n = if n < 10 then [digitChar n]
      else natDigits (n / 10) ++ [digitChar (n % 10)] := by
  by_cases h : n < 10
  · simp [natDigits, natDigitsAux, h]
  · rw [if_neg h]
    show (if n < 10 then [digitChar n]
        else natDigitsAux n (n / 10) ++ [digitChar (n % 10)])
      = natDigitsAux (n / 10 + 1) (n / 10) ++ [digitChar (n % 10)]
    rw [if_neg h, natDigitsAux_fuel n (n / 10) (n / 10 + 1) (by omega) (by omega)]

/-- Python `'%i' % n` / `str(n)` for an integer. -/
def intRepr (n : Int) : PyStr :=
  if n < 0 then '-' :: natDigits n.natAbs else natDigits n.natAbs

/-- Fractional decimal digits of `r / d`, at most `fuel` of them. -/
def fracDigits (r d : Nat) : Nat → PyStr
  | 0 => []
  | fuel + 1 =>
    if r = 0 then [] else digitChar ((r * 10) / d) :: fracDigits ((r * 10) % d) d fuel

/-- Python `str()` of a float value (modelled as a rational): sign, integer
part, `'.'`, fractional digits (17 at most, a zero when the value is whole).
Only its type matters to the claims: no claim inspects the rendered value. -/
def ratRepr (q : Rat) : PyStr :=
  (if q < 0 then ['-'] else []) ++
    natDigits (q.num.natAbs / q.den) ++
    '.' :: (if q.num.natAbs % q.den = 0 then ['0']
            else fracDigits (q.num.natAbs % q.den) q.den 17)

/-! ## Data model

The Protein/Proteome classes and the exception hierarchy are not under
`src/`; they are modelled from the spec (sections 3 and 7) and from how the
interface code under `src/` uses them. -/

/-- An attribute mapping: insertion-ordered string keys to string values. -/
abbrev AttrDict := List (PyStr × PyStr)

/-- Modelled from the spec: an interval annotation (section 3).  The source
file format calls the second coordinate `stop`; Python's `end` attribute is
rendered as `stop` here because `end` is a Lean keyword. -/
structure Domain where
  start : Int
  stop : Int
  domain_type : PyStr
  attributes : AttrDict
deriving DecidableEq

/-- Modelled from the spec: a point annotation (section 3).  The float
`value` is modelled as a rational. -/
structure Site where
  position : Int
  site_type : PyStr
  symbol : PyStr
  value : Rat
  attributes : AttrDict
deriving DecidableEq

/-- Modelled from the spec: a Protein owns an immutable sequence and its
Domain and Site collections (section 3). -/
structure Protein where
  unique_ID : PyStr
  sequence : PyStr
  domains : List Domain
  sites : List Site
deriving DecidableEq

/-- Modelled from the spec: a Proteome is the insertion-ordered collection of
Protein entities; iteration follows this order (section 3). -/
structure Proteome where
  proteins : List Protein
deriving DecidableEq

/-- Modelled from the spec: the exception classes (`interface_exceptions`,
`shephard.exceptions`) are not under `src/`.  `InterfaceException` covers the
parse-level errors of section 7; `ProteinException` covers the per-record
invariant violations (`add_site` failures are caught as `ProteinException`
in `si_sites.py`); `typeError` models Python's own `TypeError`. -/
inductive InterfaceErrKind where
  | reservedDelimiter
  | parseFail (filename : PyStr) (linecount : Nat) (line : PyStr)
  | attrFail (filename : PyStr) (linecount : Nat)
  | badSiteEntry (unique_ID : PyStr)
deriving DecidableEq

/-- Per-record invariant violations raised by the Protein data model. -/
inductive ProteinErrKind where
  | domainBounds (start stop : Int)
  | siteBounds (position : Int)
deriving DecidableEq

/-- A raised Python exception, tagged by its class. -/
inductive PyErr where
  | interfaceExc (k : InterfaceErrKind)
  | proteinExc (k : ProteinErrKind)
  | typeError
deriving DecidableEq

/-- A warning printed to the screen. -/
inductive Warning where
  | parseSkip (filename : PyStr) (linecount : Nat) (line : PyStr)
  | siteSkip (site_type : PyStr) (position : Int) (unique_ID : PyStr)
  | domainSkip (start stop : Int) (unique_ID : PyStr)
deriving DecidableEq

/-- Modelled from the spec: `Protein.add_domain` is not under `src/`.
Section 3: a Domain's interval must satisfy `1 <= start <= end <= L` at
insertion time, violations raising a protein-level exception; successful adds
append to the Protein's domain collection.  The name/duplicate-name logic of
`safe`/`autoname` is omitted: no domain name is supplied through the Domains
interface, so both flags are accepted and unused. -/
def Protein.add_domain (p : Protein) (start stop : Int) (domain_type : PyStr)
    (ad : AttrDict) (_safe _autoname : Bool) : Except PyErr Protein :=
  if 1 ≤ start ∧ start ≤ stop ∧ stop ≤ (p.sequence.length : Int) then
    .ok { p with domains := p.domains ++ [⟨start, stop, domain_type, ad⟩] }
  else .error (.proteinExc (.domainBounds start stop))

/-- Modelled from the spec: `Protein.add_site` is not under `src/`.
Section 3: a Site must satisfy `1 <= position <= L`, violations raising a
`ProteinException`; successful adds append to the Protein's site
collection. -/
def Protein.add_site (p : Protein) (position : Int) (site_type symbol : PyStr)
    (value : Rat) (attributes : AttrDict) : Except PyErr Protein :=
  if 1 ≤ position ∧ position ≤ (p.sequence.length : Int) then
    .ok { p with sites := p.sites ++ [⟨position, site_type, symbol, value, attributes⟩] }
  else .error (.proteinExc (.siteBounds position))

/-! ## Python dictionaries -/

/-- Lookup in an insertion-ordered dictionary (first matching key). -/
def dictLookup {α : Type} : List (PyStr × α) → PyStr → Option α
  | [], _ => none
  | (k, v) :: rest, q => if k = q then some v else dictLookup rest q

/-- `if k in d: d[k].append(r) else: d[k] = [r]` on an insertion-ordered
dictionary of lists. -/
def groupAppend {α : Type} (d : List (PyStr × List α)) (k : PyStr) (r : α) :
    List (PyStr × List α) :=
  if (dictLookup d k).isSome then
    d.map (fun kv => if kv.1 = k then (kv.1, kv.2 ++ [r]) else kv)
  else d ++ [(k, [r])]

/-- Replace an existing key's value, else append the pair: the effect of
`d[k] = v` on a Python dictionary. -/
def attrInsert (d : AttrDict) (k v : PyStr) : AttrDict :=
  if (dictLookup d k).isSome then
    d.map (fun kv => if kv.1 = k then (kv.1, v) else kv)
  else d ++ [(k, v)]

/-! ## interface_tools (spec-modelled) -/

/-- Split one `key:value` token; `none` unless it contains exactly one `:`. -/
def splitToken (tok : PyStr) : Option (PyStr × PyStr) :=
  match pySplit ':' tok with
  | [k, v] => some (pyStrip k, pyStrip v)
  | _ => none

/-- Modelled from the spec: `interface_tools.parse_key_value_pairs` is not
under `src/`.  Section 4.1: each token must contain exactly one `:` (key
before, value after, both trimmed); a token with zero or more than one `:`
raises a parse error reporting the source file and 1-based line number;
duplicate keys silently merge, last write wins. -/
def parse_key_value_pairs_aux (filename : PyStr) (linecount : Nat) (d : AttrDict) :
    List PyStr → Except PyErr AttrDict
  | [] => .ok d
  | tok :: rest =>
    match splitToken tok with
    | some (k, v) => parse_key_value_pairs_aux filename linecount (attrInsert d k v) rest
    | none => .error (.interfaceExc (.attrFail filename linecount))

/-- Modelled from the spec: see `parse_key_value_pairs_aux`, started on the
empty mapping. -/
def parse_key_value_pairs (tokens : List PyStr) (filename : PyStr)
    (linecount : Nat) : Except PyErr AttrDict :=
  parse_key_value_pairs_aux filename linecount [] tokens

/-! ## si_domains.py -/

/-- One parsed domain record `[start, end, domain_type, attribute_dictionary]`. -/
abbrev DomainRec := Int × Int × PyStr × AttrDict

/-- The intermediate `unique_ID -> [domain records]` mapping. -/
abbrev DomainDict := List (PyStr × List DomainRec)

/-- The `try` block of `_DomainsInterface.__init__`: `sline[0].strip()`,
`int(sline[1].strip())`, `int(sline[2].strip())`, `sline[3].strip()`;
`none` models the caught `IndexError`/`ValueError`. -/
def requiredDomainFields (sline : List PyStr) : Option (PyStr × Int × Int × PyStr) :=
  match sline with
  | s0 :: s1 :: s2 :: s3 :: _ =>
    match pyInt? (pyStrip s1), pyInt? (pyStrip s2) with
    | some start, some stop => some (pyStrip s0, start, stop, pyStrip s3)
    | _, _ => none
  | _ => none

/-- The per-line loop of `_DomainsInterface.__init__`.  `linecount` is the
1-based number of the next line; `d` is the accumulated `ID2domain`. -/
def domainsAux (filename : PyStr) (delim : Char) :
    Nat → DomainDict → List PyStr → Except PyErr DomainDict
  | _, d, [] => .ok d
  | linecount, d, line :: rest =>
    let sline := pySplit delim line
    match requiredDomainFields sline with
    | none => .error (.interfaceExc (.parseFail filename linecount line))
    | some (uid, start, stop, dtype) =>
      match (if 4 < sline.length then parse_key_value_pairs (sline.drop 4) filename linecount
             else .ok []) with
      | .error e => .error e
      | .ok ad =>
        domainsAux filename delim (linecount + 1)
          (groupAppend d uid (start, stop, dtype, ad)) rest

/-- `_DomainsInterface.__init__`: the file is given as the list of lines
`readlines` returns (each keeping its trailing newline); the result is the
`ID2domain` mapping stored as `self.data`, or the raised exception. -/
def _DomainsInterface (filename : PyStr) (lines : List PyStr) (delim : Char) :
    Except PyErr DomainDict :=
  if delim = ':' then .error (.interfaceExc .reservedDelimiter)
  else domainsAux filename delim 1 [] lines

/-- The inner loop of `add_domains_from_dictionary`: add each record of one
protein's group, with the source's `except InterfaceException` clause —
exceptions of any other class propagate uncaught. -/
def addDomainsToProtein (autoname safe skip_bad verbose : Bool) :
    Protein → List Warning → List DomainRec → List Warning × Except PyErr Protein
  | p, w, [] => (w, .ok p)
  | p, w, (start, stop, dtype, ad) :: rest =>
    match p.add_domain start stop dtype ad safe autoname with
    | .ok p2 => addDomainsToProtein autoname safe skip_bad verbose p2 w rest
    | .error e =>
      match e with
      | .interfaceExc _ =>
        if skip_bad then
          addDomainsToProtein autoname safe skip_bad verbose p
            (if verbose then w ++ [.domainSkip start stop p.unique_ID] else w) rest
        else (w, .error e)
      | _ => (w, .error e)

/-- The outer loop of `add_domains_from_dictionary` over the Proteome. -/
def addDomainsGo (dd : DomainDict) (autoname safe skip_bad verbose : Bool) :
    List Protein → List Warning → List Warning × Except PyErr (List Protein)
  | [], w => (w, .ok [])
  | p :: rest, w =>
    match dictLookup dd p.unique_ID with
    | none =>
      match addDomainsGo dd autoname safe skip_bad verbose rest w with
      | (w2, .ok qs) => (w2, .ok (p :: qs))
      | (w2, .error e) => (w2, .error e)
    | some recs =>
      match addDomainsToProtein autoname safe skip_bad verbose p w recs with
      | (w2, .ok p2) =>
        match addDomainsGo dd autoname safe skip_bad verbose rest w2 with
        | (w3, .ok qs) => (w3, .ok (p2 :: qs))
        | (w3, .error e) => (w3, .error e)
      | (w2, .error e) => (w2, .error e)

/-- `add_domains_from_dictionary(proteome, domain_dictionary, autoname, safe,
skip_bad, verbose)`: first component the printed warnings, second the
resulting Proteome or the propagated exception. -/
def add_domains_from_dictionary (proteome : Proteome) (domain_dictionary : DomainDict)
    (autoname safe skip_bad verbose : Bool) : List Warning × Except PyErr Proteome :=
  match addDomainsGo domain_dictionary autoname safe skip_bad verbose proteome.proteins [] with
  | (w, .ok qs) => (w, .ok ⟨qs⟩)
  | (w, .error e) => (w, .error e)

/-- `add_domains_from_file(proteome, filename, autoname, delimiter, safe,
skip_bad, verbose)`, with the file contents passed as its lines. -/
def add_domains_from_file (proteome : Proteome) (filename : PyStr) (lines : List PyStr)
    (autoname : Bool) (delim : Char) (safe skip_bad verbose : Bool) :
    List Warning × Except PyErr Proteome :=
  match _DomainsInterface filename lines delim with
  | .error e => ([], .error e)
  | .ok dd => add_domains_from_dictionary proteome dd autoname safe skip_bad verbose

/-- The line `write_domains` emits for one domain:
`'%s%s%i%s%i%s%s\n' % (unique_ID, delim, start, delim, end, delim, domain_type)`. -/
def writeDomainLine (delim : Char) (uid : PyStr) (d : Domain) : PyStr :=
  uid ++ delim :: intRepr d.start ++ delim :: intRepr d.stop ++ delim :: d.domain_type ++ ['\n']

/-- `write_domains(proteome, filename, delimiter, skip_bad)`: the list of
lines written to the file.  The source iterates `protein.domains` and looks
each name up with `protein.domain(d)`; the name-keyed lookup layer is not
under `src/`, so this is modelled as direct iteration over the domain
collection.  `skip_bad` is accepted and unused, as in the source. -/
def write_domains (proteome : Proteome) (delim : Char) (_skip_bad : Bool) : List PyStr :=
  (proteome.proteins.map
    (fun p => p.domains.map (writeDomainLine delim p.unique_ID))).flatten

/-! ## si_sites.py -/

/-- One site record of the intermediate mapping: the Python dictionary
`{'position':…, 'site_type':…, 'symbol':…, 'value':…, 'attributes':…}`,
restricted to the five recognized keys (extra keys are ignored by the
consumer, per its docstring); a `none` field models an absent key. -/
structure SiteRec where
  position : Option Int := none
  site_type : Option PyStr := none
  symbol : Option PyStr := none
  value : Option Rat := none
  attributes : Option AttrDict := none
deriving DecidableEq

/-- The intermediate `unique_ID -> [site records]` mapping. -/
abbrev SiteDict := List (PyStr × List SiteRec)

/-- The `try` block of `_SitesInterface.__init__`: `sline[0].strip()`,
`int(sline[1].strip())`, `sline[2].strip()`, `sline[3].strip()`,
`float(sline[4].strip())`. -/
def requiredSiteFields (sline : List PyStr) :
    Option (PyStr × Int × PyStr × PyStr × Rat) :=
  match sline with
  | s0 :: s1 :: s2 :: s3 :: s4 :: _ =>
    match pyInt? (pyStrip s1), pyFloat? (pyStrip s4) with
    | some pos, some v => some (pyStrip s0, pos, pyStrip s2, pyStrip s3, v)
    | _, _ => none
  | _ => none

/-- The per-line loop of `_SitesInterface.__init__` (note it splits
`line.strip()`, unlike the Domains reader).  A malformed required field is
skipped with a printed warning under `skip_bad`, else raises. -/
def sitesAux (filename : PyStr) (delim : Char) (skip_bad : Bool) :
    Nat → List Warning → SiteDict → List PyStr → List Warning × Except PyErr SiteDict
  | _, w, d, [] => (w, .ok d)
  | linecount, w, d, line :: rest =>
    let sline := pySplit delim (pyStrip line)
    match requiredSiteFields sline with
    | none =>
      if skip_bad then
        sitesAux filename delim skip_bad (linecount + 1)
          (w ++ [.parseSkip filename linecount line]) d rest
      else (w, .error (.interfaceExc (.parseFail filename linecount line)))
    | some (uid, pos, stype, sym, v) =>
      match (if 5 < sline.length then parse_key_value_pairs (sline.drop 5) filename linecount
             else .ok []) with
      | .error e => (w, .error e)
      | .ok ad =>
        sitesAux filename delim skip_bad (linecount + 1) w
          (groupAppend d uid
            { position := some pos, site_type := some stype, symbol := some sym,
              value := some v, attributes := some ad }) rest

/-- `_SitesInterface.__init__`: printed warnings plus the `ID2site` mapping
stored as `self.data`, or the raised exception. -/
def _SitesInterface (filename : PyStr) (lines : List PyStr) (delim : Char)
    (skip_bad : Bool) : List Warning × Except PyErr SiteDict :=
  if delim = ':' then ([], .error (.interfaceExc .reservedDelimiter))
  else sitesAux filename delim skip_bad 1 [] [] lines

/-- The outer `try` of the per-site loop of `add_sites_from_dictionary`:
extract the four required keys (a missing one raises an
`InterfaceException` naming the protein's `unique_ID`), with the inner
`try`/`except` defaulting a missing `'attributes'` key to `{}`. -/
def extractSiteParams (uid : PyStr) (site : SiteRec) :
    Except PyErr (Int × PyStr × PyStr × Rat × AttrDict) :=
  match site.position, site.site_type, site.symbol, site.value with
  | some pos, some st, some sym, some v => .ok (pos, st, sym, v, site.attributes.getD [])
  | _, _, _, _ => .error (.interfaceExc (.badSiteEntry uid))

/-- The per-protein loop of `add_sites_from_dictionary`: `add_site` failures
are caught as `ProteinException`; under `safe` the error is printed and
re-raised (`print_and_raise_error`), otherwise the site is skipped, with a
warning when `verbose`. -/
def addSitesToProtein (safe verbose : Bool) :
    Protein → List Warning → List SiteRec → List Warning × Except PyErr Protein
  | p, w, [] => (w, .ok p)
  | p, w, site :: rest =>
    match extractSiteParams p.unique_ID site with
    | .error e => (w, .error e)
    | .ok (pos, st, sym, v, ad) =>
      match p.add_site pos st sym v ad with
      | .ok p2 => addSitesToProtein safe verbose p2 w rest
      | .error e =>
        match e with
        | .proteinExc _ =>
          if safe then (w ++ [.siteSkip st pos p.unique_ID], .error e)
          else addSitesToProtein safe verbose p
            (if verbose then w ++ [.siteSkip st pos p.unique_ID] else w) rest
        | _ => (w, .error e)

/-- The outer loop of `add_sites_from_dictionary` over the Proteome. -/
def addSitesGo (sd : SiteDict) (safe verbose : Bool) :
    List Protein → List Warning → List Warning × Except PyErr (List Protein)
  | [], w => (w, .ok [])
  | p :: rest, w =>
    match dictLookup sd p.unique_ID with
    | none =>
      match addSitesGo sd safe verbose rest w with
      | (w2, .ok qs) => (w2, .ok (p :: qs))
      | (w2, .error e) => (w2, .error e)
    | some recs =>
      match addSitesToProtein safe verbose p w recs with
      | (w2, .ok p2) =>
        match addSitesGo sd safe verbose rest w2 with
        | (w3, .ok qs) => (w3, .ok (p2 :: qs))
        | (w3, .error e) => (w3, .error e)
      | (w2, .error e) => (w2, .error e)

/-- `add_sites_from_dictionary(proteome, sites_dictionary, safe, verbose)`. -/
def add_sites_from_dictionary (proteome : Proteome) (sites_dictionary : SiteDict)
    (safe verbose : Bool) : List Warning × Except PyErr Proteome :=
  match addSitesGo sites_dictionary safe verbose proteome.proteins [] with
  | (w, .ok qs) => (w, .ok ⟨qs⟩)
  | (w, .error e) => (w, .error e)

/-- The line `write_sites` builds for one site.  After the five required
fields (each followed by the delimiter) the source runs, for a non-empty
attribute mapping, `str(s.attributes(k))` — calling the attribute dictionary
as a function, which raises a `TypeError`. -/
def writeSiteLine (delim : Char) (uid : PyStr) (s : Site) : Except PyErr PyStr :=
  let base := uid ++ delim :: intRepr s.position ++ delim :: s.site_type ++
    delim :: s.symbol ++ delim :: ratRepr s.value ++ [delim]
  if s.attributes = [] then .ok (base ++ ['\n'])
  else .error .typeError

/-- `write_sites(proteome, filename, delimiter)`: the lines written, or the
exception raised while serializing. -/
def write_sites (proteome : Proteome) (delim : Char) : Except PyErr (List PyStr) :=
  (proteome.proteins.mapM
    (fun p : Protein => p.sites.mapM (writeSiteLine delim p.unique_ID))).map List.flatten

/-! ## Theorems -/

/-- C6: For both the Domains and the Sites reader, a field delimiter equal to
`':'` raises the reserved-delimiter `ParseError` for every input file, before
any line of the file is processed: the result is the same error for all file
contents. -/
theorem c6_reserved_delimiter_rejected :
    ∀ (filename : PyStr) (lines : List PyStr) (skip_bad : Bool),
      _DomainsInterface filename lines ':' = .error (.interfaceExc .reservedDelimiter) ∧
      _SitesInterface filename lines ':' skip_bad
        = ([], .error (.interfaceExc .reservedDelimiter)) := by
  intro filename lines skip_bad
  exact ⟨by simp [_DomainsInterface], by simp [_SitesInterface]⟩

/-- A proteome holding one protein with one site whose attribute mapping is
non-empty. -/
def siteAttrProteome : Proteome :=
  ⟨[⟨['P', '1'], ['A', 'A', 'A'], [],
     [⟨1, ['T'], ['S'], 1, [(['a'], ['b'])]⟩]⟩]⟩

/-- C2: the Sites writer calls `s.attributes(k)` — invoking the attribute
dictionary as if it were callable — so for a site with a non-empty attribute
mapping the write raises a `TypeError` instead of completing with the
attribute tokens on the line: evaluated at a concrete proteome. -/
theorem c2_write_sites_attributes_raise :
    write_sites siteAttrProteome '\t' = .error .typeError := by rfl

/-- A proteome with one 3-residue protein, and a domain dictionary holding one
out-of-bounds record (stop 99 > 3) for it. -/
def domainBoundsProteome : Proteome := ⟨[⟨['P'], ['A', 'A', 'A'], [], []⟩]⟩

/-- The domain dictionary with the out-of-bounds record for `domainBoundsProteome`. -/
def domainBoundsDict : DomainDict := [(['P'], [(1, 99, ['D'], [])])]

/-- C8: in `add_domains_from_dictionary` the `except` clause catches
`InterfaceException`, but a failing `add_domain` raises a protein-level
exception, so even with `skip_bad = true` and `verbose = true` the failure
propagates and no warning is printed: evaluated at a concrete out-of-bounds
record. -/
theorem c8_skip_bad_does_not_catch_add_domain_failure :
    add_domains_from_dictionary domainBoundsProteome domainBoundsDict
      false true true true
      = ([], .error (.proteinExc (.domainBounds 1 99))) := by rfl

/-- C5: on a line whose required fields are missing or fail coercion, the
Sites reader with `skip_bad = true` prints one warning naming the file and the
1-based line number, leaves the accumulated mapping unchanged, and continues
with the remaining lines; with `skip_bad = false` it raises the
`ParseError`, aborting the read. -/
theorem c5_sites_reader_bad_line_policy (filename bad : PyStr) (delim : Char)
    (h : requiredSiteFields (pySplit delim (pyStrip bad)) = none) :
    (∀ (lc : Nat) (w : List Warning) (d : SiteDict) (rest : List PyStr),
        sitesAux filename delim true lc w d (bad :: rest)
          = sitesAux filename delim true (lc + 1)
              (w ++ [.parseSkip filename lc bad]) d rest) ∧
    (∀ (lc : Nat) (w : List Warning) (d : SiteDict) (rest : List PyStr),
        sitesAux filename delim false lc w d (bad :: rest)
          = (w, .error (.interfaceExc (.parseFail filename lc bad)))) := by
  constructor <;> intro lc w d rest <;> simp [sitesAux, h]

/-- A concrete malformed sites line: `position` fails integer coercion. -/
def badSiteLine : PyStr := ['P', '\t', 'x', '\t', 'T', '\t', 'S', '\t', '1', '\n']

/-- Witness for C5 at the concrete malformed line `"P\tx\tT\tS\t1\n"`. -/
theorem c5_sites_reader_bad_line_policy_witness :
    requiredSiteFields (pySplit '\t' (pyStrip badSiteLine)) = none ∧
    sitesAux [] '\t' true 1 [] [] [badSiteLine]
      = sitesAux [] '\t' true 2 [.parseSkip [] 1 badSiteLine] [] [] ∧
    sitesAux [] '\t' false 1 [] [] [badSiteLine]
      = ([], .error (.interfaceExc (.parseFail [] 1 badSiteLine))) := by
  refine ⟨by decide, ?_, ?_⟩
  · exact (c5_sites_reader_bad_line_policy [] badSiteLine '\t' (by decide)).1 1 [] [] []
  · exact (c5_sites_reader_bad_line_policy [] badSiteLine '\t' (by decide)).2 1 [] [] []

/-- The four required keys of a site record are all present. -/
def fourComplete (r : SiteRec) : Bool :=
  r.position.isSome && r.site_type.isSome && r.symbol.isSome && r.value.isSome

/-- C9: in `add_sites_from_dictionary`, a record carrying the four required
keys but lacking `'attributes'` is processed exactly as if it carried an
empty attribute mapping, while a record lacking any of
`position`/`site_type`/`symbol`/`value` raises an `InterfaceException`
naming the protein's `unique_ID`, regardless of `safe` and `verbose`. -/
theorem c9_site_record_key_handling (safe verbose : Bool) (r : SiteRec) :
    (fourComplete r = true → r.attributes = none →
      ∀ (p : Protein) (w : List Warning) (rest : List SiteRec),
        addSitesToProtein safe verbose p w (r :: rest)
          = addSitesToProtein safe verbose p w ({r with attributes := some []} :: rest)) ∧
    (fourComplete r = false →
      ∀ (p : Protein) (w : List Warning) (rest : List SiteRec),
        addSitesToProtein safe verbose p w (r :: rest)
          = (w, .error (.interfaceExc (.badSiteEntry p.unique_ID)))) ∧
    (fourComplete r = false →
      ∀ (uid seq : PyStr) (doms : List Domain) (ss : List Site) (rest : List SiteRec),
        add_sites_from_dictionary ⟨[⟨uid, seq, doms, ss⟩]⟩ [(uid, r :: rest)] safe verbose
          = ([], .error (.interfaceExc (.badSiteEntry uid)))) := by
  obtain ⟨pos?, st?, sym?, v?, ad?⟩ := r
  refine ⟨?_, ?_, ?_⟩
  · intro hfour hattr p w rest
    simp only [fourComplete] at hfour
    obtain ⟨pos, hpos⟩ : (∃ x, pos? = some x) := Option.isSome_iff_exists.mp (by simp_all)
    obtain ⟨st, hst⟩ : (∃ x, st? = some x) := Option.isSome_iff_exists.mp (by simp_all)
    obtain ⟨sym, hsym⟩ : (∃ x, sym? = some x) := Option.isSome_iff_exists.mp (by simp_all)
    obtain ⟨v, hv⟩ : (∃ x, v? = some x) := Option.isSome_iff_exists.mp (by simp_all)
    simp only at hattr
    subst hpos hst hsym hv hattr
    simp [addSitesToProtein, extractSiteParams]
  · intro hfour p w rest
    simp only [fourComplete, Bool.and_eq_false_iff] at hfour
    cases pos? <;> cases st? <;> cases sym? <;> cases v? <;>
      simp_all [addSitesToProtein, extractSiteParams]
  · intro hfour uid seq doms ss rest
    simp only [fourComplete, Bool.and_eq_false_iff] at hfour
    cases pos? <;> cases st? <;> cases sym? <;> cases v? <;>
      simp_all [add_sites_from_dictionary, addSitesGo, dictLookup,
        addSitesToProtein, extractSiteParams]

/-- Witness for C9: a record with the four keys and no `'attributes'`, and a
record missing `value`, on a one-protein Proteome. -/
theorem c9_site_record_key_handling_witness :
    (fourComplete ⟨some 1, some ['T'], some ['S'], some 1, none⟩ = true ∧
      addSitesToProtein true false ⟨['P'], ['A'], [], []⟩ []
          [⟨some 1, some ['T'], some ['S'], some 1, none⟩]
        = addSitesToProtein true false ⟨['P'], ['A'], [], []⟩ []
          [⟨some 1, some ['T'], some ['S'], some 1, some []⟩]) ∧
    (fourComplete ⟨some 1, some ['T'], some ['S'], none, none⟩ = false ∧
      add_sites_from_dictionary ⟨[⟨['P'], ['A'], [], []⟩]⟩
          [(['P'], [⟨some 1, some ['T'], some ['S'], none, none⟩])] true false
        = ([], .error (.interfaceExc (.badSiteEntry ['P'])))) := by
  constructor
  · exact ⟨by decide,
      (c9_site_record_key_handling true false _).1 (by decide) rfl ⟨['P'], ['A'], [], []⟩ [] []⟩
  · exact ⟨by decide,
      (c9_site_record_key_handling true false _).2.2 (by decide) ['P'] ['A'] [] [] []⟩

/-- A line the Domains reader accepts: required fields parse and every
remaining token holds exactly one `:`. -/
def domLineOk (delim : Char) (line : PyStr) : Bool :=
  (requiredDomainFields (pySplit delim line)).isSome &&
  ((pySplit delim line).drop 4).all (fun t => (splitToken t).isSome)

theorem parse_kv_aux_ok (filename : PyStr) (lc : Nat) :
    ∀ (tokens : List PyStr), (∀ t ∈ tokens, (splitToken t).isSome = true) →
      ∀ (acc : AttrDict), ∃ ad, parse_key_value_pairs_aux filename lc acc tokens = .ok ad := by
  intro tokens
  induction tokens with
  | nil => exact fun _ acc => ⟨acc, rfl⟩
  | cons t ts ih =>
    intro h acc
    obtain ⟨kv, hkv⟩ := Option.isSome_iff_exists.mp (h t (List.mem_cons_self ..))
    obtain ⟨r, hr⟩ := ih (fun x hx => h x (List.mem_cons_of_mem _ hx)) (attrInsert acc kv.1 kv.2)
    exact ⟨r, by simp [parse_key_value_pairs_aux, hkv, hr]⟩

theorem domainsAux_abort (filename bad : PyStr) (delim : Char) (suf : List PyStr)
    (hbad : requiredDomainFields (pySplit delim bad) = none) :
    ∀ (pre : List PyStr), (∀ l ∈ pre, domLineOk delim l = true) →
      ∀ (lc : Nat) (d : DomainDict),
        domainsAux filename delim lc d (pre ++ bad :: suf)
          = .error (.interfaceExc (.parseFail filename (lc + pre.length) bad)) := by
  intro pre
  induction pre with
  | nil => intro _ lc d; simp [domainsAux, hbad]
  | cons l pre ih =>
    intro h lc d
    have hl := h l (List.mem_cons_self ..)
    simp only [domLineOk, Bool.and_eq_true, List.all_eq_true] at hl
    obtain ⟨hreq, htoks⟩ := hl
    obtain ⟨q, hq⟩ := Option.isSome_iff_exists.mp hreq
    obtain ⟨u, s1, s2, dt⟩ := q
    have hattr : ∃ ad, (if 4 < (pySplit delim l).length
        then parse_key_value_pairs ((pySplit delim l).drop 4) filename lc
        else .ok ([] : AttrDict)) = .ok ad := by
      by_cases hlen : 4 < (pySplit delim l).length
      · rw [if_pos hlen]
        exact parse_kv_aux_ok filename lc _ htoks []
      · exact ⟨[], if_neg hlen⟩
    obtain ⟨ad, had⟩ := hattr
    have hstep : domainsAux filename delim lc d ((l :: pre) ++ bad :: suf)
        = domainsAux filename delim (lc + 1) (groupAppend d u (s1, s2, dt, ad))
            (pre ++ bad :: suf) := by
      simp only [List.cons_append, domainsAux, hq, had]
      rfl
    rw [hstep, ih (fun x hx => h x (List.mem_cons_of_mem _ hx)) (lc + 1)]
    have harith : lc + 1 + pre.length = lc + (l :: pre).length := by
      simp [List.length_cons]; omega
    rw [harith]

/-- C4: for a Domains file containing a line whose required fields are missing
or fail integer coercion (every earlier line being well formed), the reader
aborts the whole read with a `ParseError` carrying the source file name and
the 1-based number of that line; no intermediate mapping is returned. -/
theorem c4_domains_reader_aborts_whole_file (filename : PyStr) (delim : Char)
    (pre suf : List PyStr) (bad : PyStr)
    (hdelim : delim ≠ ':')
    (hpre : ∀ l ∈ pre, domLineOk delim l = true)
    (hbad : requiredDomainFields (pySplit delim bad) = none) :
    _DomainsInterface filename (pre ++ bad :: suf) delim
      = .error (.interfaceExc (.parseFail filename (pre.length + 1) bad)) := by
  unfold _DomainsInterface
  rw [if_neg hdelim, domainsAux_abort filename bad delim suf hbad pre hpre 1 [],
    Nat.add_comm]

/-- A concrete malformed domains line: `start` fails integer coercion. -/
def badDomainLine : PyStr := ['X', '\t', 'y', '\t', '2', '\t', 'D', '\n']

/-- A concrete well-formed domains line preceding it. -/
def goodDomainLine : PyStr := ['P', '\t', '1', '\t', '2', '\t', 'D', '\n']

/-- Witness for C4: the reader aborts on line 2 of a two-line file whose
first line is well formed. -/
theorem c4_domains_reader_aborts_whole_file_witness :
    ('\t' : Char) ≠ ':' ∧ (∀ l ∈ [goodDomainLine], domLineOk '\t' l = true) ∧
    requiredDomainFields (pySplit '\t' badDomainLine) = none ∧
    _DomainsInterface [] [goodDomainLine, badDomainLine] '\t'
      = .error (.interfaceExc (.parseFail [] 2 badDomainLine)) := by
  refine ⟨by decide, by decide, by decide, ?_⟩
  exact c4_domains_reader_aborts_whole_file [] '\t' [goodDomainLine] []
    badDomainLine (by decide) (by decide) (by decide)

theorem dictLookup_middle {α : Type} (uid q : PyStr) (recs : α) (hne : q ≠ uid) :
    ∀ (d1 d2 : List (PyStr × α)),
      dictLookup (d1 ++ (uid, recs) :: d2) q = dictLookup (d1 ++ d2) q
  | [], d2 => by
    show dictLookup ((uid, recs) :: d2) q = dictLookup d2 q
    simp only [dictLookup]
    rw [if_neg (fun h : uid = q => hne h.symm)]
  | (k, v) :: d1, d2 => by
    by_cases hk : k = q
    · simp [dictLookup, hk]
    · simp only [List.cons_append, dictLookup, if_neg hk]
      exact dictLookup_middle uid q recs hne d1 d2

theorem addDomainsGo_congr (dd1 dd2 : DomainDict) (a s k v : Bool) :
    ∀ (ps : List Protein) (w : List Warning),
      (∀ p ∈ ps, dictLookup dd1 p.unique_ID = dictLookup dd2 p.unique_ID) →
      addDomainsGo dd1 a s k v ps w = addDomainsGo dd2 a s k v ps w
  | [], _, _ => rfl
  | p :: ps, w, h => by
    have ih : ∀ w2, addDomainsGo dd1 a s k v ps w2 = addDomainsGo dd2 a s k v ps w2 :=
      fun w2 => addDomainsGo_congr dd1 dd2 a s k v ps w2
        (fun x hx => h x (List.mem_cons_of_mem _ hx))
    simp only [addDomainsGo, h p (List.mem_cons_self ..)]
    split
    · rw [ih w]
    · rename_i recs heq
      cases hres : addDomainsToProtein a s k v p w recs with
      | mk w2 r =>
        try rw [hres]
        cases r <;> simp [ih w2]

theorem addSitesGo_congr (sd1 sd2 : SiteDict) (sf vb : Bool) :
    ∀ (ps : List Protein) (w : List Warning),
      (∀ p ∈ ps, dictLookup sd1 p.unique_ID = dictLookup sd2 p.unique_ID) →
      addSitesGo sd1 sf vb ps w = addSitesGo sd2 sf vb ps w
  | [], _, _ => rfl
  | p :: ps, w, h => by
    have ih : ∀ w2, addSitesGo sd1 sf vb ps w2 = addSitesGo sd2 sf vb ps w2 :=
      fun w2 => addSitesGo_congr sd1 sd2 sf vb ps w2
        (fun x hx => h x (List.mem_cons_of_mem _ hx))
    simp only [addSitesGo, h p (List.mem_cons_self ..)]
    split
    · rw [ih w]
    · rename_i recs heq
      cases hres : addSitesToProtein sf vb p w recs with
      | mk w2 r =>
        try rw [hres]
        cases r <;> simp [ih w2]

theorem add_domain_ok_preserves (p : Protein) (start stop : Int) (dt : PyStr)
    (ad : AttrDict) (s a : Bool) (p2 : Protein)
    (h : p.add_domain start stop dt ad s a = .ok p2) :
    p2.unique_ID = p.unique_ID ∧ p2.sequence = p.sequence := by
  unfold Protein.add_domain at h
  split at h
  · cases h; exact ⟨rfl, rfl⟩
  · exact absurd h (by simp)

theorem add_site_ok_preserves (p : Protein) (pos : Int) (st sym : PyStr) (v : Rat)
    (ad : AttrDict) (p2 : Protein) (h : p.add_site pos st sym v ad = .ok p2) :
    p2.unique_ID = p.unique_ID ∧ p2.sequence = p.sequence := by
  unfold Protein.add_site at h
  split at h
  · cases h; exact ⟨rfl, rfl⟩
  · exact absurd h (by simp)

theorem addDomainsToProtein_preserves (a s k v : Bool) :
    ∀ (recs : List DomainRec) (p : Protein) (w w2 : List Warning) (p2 : Protein),
      addDomainsToProtein a s k v p w recs = (w2, .ok p2) →
      p2.unique_ID = p.unique_ID ∧ p2.sequence = p.sequence
  | [], p, w, w2, p2 => by
    intro hres
    simp only [addDomainsToProtein] at hres
    obtain ⟨-, h2⟩ := Prod.mk.injEq .. ▸ hres
    cases h2
    exact ⟨rfl, rfl⟩
  | (start, stop, dtype, ad) :: rest, p, w, w2, p2 => by
    intro hres
    simp only [addDomainsToProtein] at hres
    split at hres
    · rename_i p3 heq
      obtain ⟨h1, h2⟩ := add_domain_ok_preserves p start stop dtype ad s a p3 heq
      obtain ⟨h3, h4⟩ := addDomainsToProtein_preserves a s k v rest p3 w w2 p2 hres
      exact ⟨h3.trans h1, h4.trans h2⟩
    · split at hres
      · split at hres
        · exact addDomainsToProtein_preserves a s k v rest p _ w2 p2 hres
        · exact absurd (congrArg Prod.snd hres) (by simp)
      · exact absurd (congrArg Prod.snd hres) (by simp)

theorem addSitesToProtein_preserves (sf vb : Bool) :
    ∀ (recs : List SiteRec) (p : Protein) (w w2 : List Warning) (p2 : Protein),
      addSitesToProtein sf vb p w recs = (w2, .ok p2) →
      p2.unique_ID = p.unique_ID ∧ p2.sequence = p.sequence
  | [], p, w, w2, p2 => by
    intro hres
    simp only [addSitesToProtein] at hres
    obtain ⟨-, h2⟩ := Prod.mk.injEq .. ▸ hres
    cases h2
    exact ⟨rfl, rfl⟩
  | site :: rest, p, w, w2, p2 => by
    intro hres
    simp only [addSitesToProtein] at hres
    split at hres
    · exact absurd (congrArg Prod.snd hres) (by simp)
    · split at hres
      · rename_i p3 heq2
        obtain ⟨h1, h2⟩ := add_site_ok_preserves p _ _ _ _ _ p3 heq2
        obtain ⟨h3, h4⟩ := addSitesToProtein_preserves sf vb rest p3 w w2 p2 hres
        exact ⟨h3.trans h1, h4.trans h2⟩
      · split at hres
        · split at hres
          · exact absurd (congrArg Prod.snd hres) (by simp)
          · exact addSitesToProtein_preserves sf vb rest p _ w2 p2 hres
        · exact absurd (congrArg Prod.snd hres) (by simp)

theorem addDomainsGo_preserves (dd : DomainDict) (a s k v : Bool) :
    ∀ (ps : List Protein) (w w2 : List Warning) (qs : List Protein),
      addDomainsGo dd a s k v ps w = (w2, .ok qs) →
      qs.map (fun p => (p.unique_ID, p.sequence))
        = ps.map (fun p => (p.unique_ID, p.sequence))
  | [], w, w2, qs => by
    intro hres
    simp only [addDomainsGo] at hres
    obtain ⟨-, h2⟩ := Prod.mk.injEq .. ▸ hres
    cases h2
    rfl
  | p :: ps, w, w2, qs => by
    intro hres
    simp only [addDomainsGo] at hres
    split at hres
    · split at hres
      · rename_i w3 qs2 hgo
        obtain ⟨-, h2⟩ := Prod.mk.injEq .. ▸ hres
        cases h2
        simp [addDomainsGo_preserves dd a s k v ps w w3 qs2 hgo]
      · exact absurd (congrArg Prod.snd hres) (by simp)
    · rename_i recs hd
      split at hres
      · rename_i w3 p2 hadd
        split at hres
        · rename_i w4 qs2 hgo
          obtain ⟨-, h2⟩ := Prod.mk.injEq .. ▸ hres
          cases h2
          obtain ⟨h1, h2⟩ := addDomainsToProtein_preserves a s k v recs p w w3 p2 hadd
          simp [h1, h2, addDomainsGo_preserves dd a s k v ps w3 w4 qs2 hgo]
        · exact absurd (congrArg Prod.snd hres) (by simp)
      · exact absurd (congrArg Prod.snd hres) (by simp)

theorem addSitesGo_preserves (sd : SiteDict) (sf vb : Bool) :
    ∀ (ps : List Protein) (w w2 : List Warning) (qs : List Protein),
      addSitesGo sd sf vb ps w = (w2, .ok qs) →
      qs.map (fun p => (p.unique_ID, p.sequence))
        = ps.map (fun p => (p.unique_ID, p.sequence))
  | [], w, w2, qs => by
    intro hres
    simp only [addSitesGo] at hres
    obtain ⟨-, h2⟩ := Prod.mk.injEq .. ▸ hres
    cases h2
    rfl
  | p :: ps, w, w2, qs => by
    intro hres
    simp only [addSitesGo] at hres
    split at hres
    · split at hres
      · rename_i w3 qs2 hgo
        obtain ⟨-, h2⟩ := Prod.mk.injEq .. ▸ hres
        cases h2
        simp [addSitesGo_preserves sd sf vb ps w w3 qs2 hgo]
      · exact absurd (congrArg Prod.snd hres) (by simp)
    · rename_i recs hd
      split at hres
      · rename_i w3 p2 hadd
        split at hres
        · rename_i w4 qs2 hgo
          obtain ⟨-, h2⟩ := Prod.mk.injEq .. ▸ hres
          cases h2
          obtain ⟨h1, h2⟩ := addSitesToProtein_preserves sf vb recs p w w3 p2 hadd
          simp [h1, h2, addSitesGo_preserves sd sf vb ps w3 w4 qs2 hgo]
        · exact absurd (congrArg Prod.snd hres) (by simp)
      · exact absurd (congrArg Prod.snd hres) (by simp)

/-- C7: an intermediate-mapping entry whose `unique_ID` names no Protein of
the Proteome is a no-op for both bulk loads — removing the entry leaves the
warnings and the outcome unchanged — and a successful bulk load never adds or
removes a Protein nor touches identity or sequence. -/
theorem c7_absent_unique_ID_entry_is_noop (P : Proteome) (uid : PyStr)
    (h : uid ∉ P.proteins.map Protein.unique_ID) :
    (∀ (d1 d2 : DomainDict) (recs : List DomainRec) (a s k v : Bool),
        add_domains_from_dictionary P (d1 ++ (uid, recs) :: d2) a s k v
          = add_domains_from_dictionary P (d1 ++ d2) a s k v) ∧
    (∀ (s1 s2 : SiteDict) (recs : List SiteRec) (sf vb : Bool),
        add_sites_from_dictionary P (s1 ++ (uid, recs) :: s2) sf vb
          = add_sites_from_dictionary P (s1 ++ s2) sf vb) ∧
    (∀ (dd : DomainDict) (a s k v : Bool) (w : List Warning) (Q : Proteome),
        add_domains_from_dictionary P dd a s k v = (w, .ok Q) →
        Q.proteins.map (fun p => (p.unique_ID, p.sequence))
          = P.proteins.map (fun p => (p.unique_ID, p.sequence))) ∧
    (∀ (sd : SiteDict) (sf vb : Bool) (w : List Warning) (Q : Proteome),
        add_sites_from_dictionary P sd sf vb = (w, .ok Q) →
        Q.proteins.map (fun p => (p.unique_ID, p.sequence))
          = P.proteins.map (fun p => (p.unique_ID, p.sequence))) := by
  have hne : ∀ p ∈ P.proteins, p.unique_ID ≠ uid := by
    intro p hp heq
    exact h (heq ▸ List.mem_map_of_mem Protein.unique_ID hp)
  refine ⟨?_, ?_, ?_, ?_⟩
  · intro d1 d2 recs a s k v
    unfold add_domains_from_dictionary
    rw [addDomainsGo_congr (d1 ++ (uid, recs) :: d2) (d1 ++ d2) a s k v P.proteins []
      (fun p hp => dictLookup_middle uid p.unique_ID recs (hne p hp) d1 d2)]
  · intro s1 s2 recs sf vb
    unfold add_sites_from_dictionary
    rw [addSitesGo_congr (s1 ++ (uid, recs) :: s2) (s1 ++ s2) sf vb P.proteins []
      (fun p hp => dictLookup_middle uid p.unique_ID recs (hne p hp) s1 s2)]
  · intro dd a s k v w Q hres
    unfold add_domains_from_dictionary at hres
    cases hgo : addDomainsGo dd a s k v P.proteins [] with
    | mk w2 r =>
      rw [hgo] at hres
      cases r with
      | error e => exact absurd (congrArg Prod.snd hres) (by simp)
      | ok qs =>
        obtain ⟨-, h2⟩ := Prod.mk.injEq .. ▸ hres
        cases h2
        exact addDomainsGo_preserves dd a s k v P.proteins [] w2 qs hgo
  · intro sd sf vb w Q hres
    unfold add_sites_from_dictionary at hres
    cases hgo : addSitesGo sd sf vb P.proteins [] with
    | mk w2 r =>
      rw [hgo] at hres
      cases r with
      | error e => exact absurd (congrArg Prod.snd hres) (by simp)
      | ok qs =>
        obtain ⟨-, h2⟩ := Prod.mk.injEq .. ▸ hres
        cases h2
        exact addSitesGo_preserves sd sf vb P.proteins [] w2 qs hgo

/-- Witness for C7: an entry for absent `"Q"` on a one-protein Proteome is
dropped without effect. -/
theorem c7_absent_unique_ID_entry_is_noop_witness :
    (['Q'] : PyStr) ∉ (⟨[⟨['P'], ['A', 'A'], [], []⟩]⟩ : Proteome).proteins.map
      Protein.unique_ID ∧
    add_domains_from_dictionary ⟨[⟨['P'], ['A', 'A'], [], []⟩]⟩
        ([] ++ (['Q'], [(1, 1, ['D'], [])]) :: []) false true true true
      = add_domains_from_dictionary ⟨[⟨['P'], ['A', 'A'], [], []⟩]⟩ ([] ++ [])
          false true true true := by
  refine ⟨by decide, ?_⟩
  exact (c7_absent_unique_ID_entry_is_noop ⟨[⟨['P'], ['A', 'A'], [], []⟩]⟩ ['Q']
    (by decide)).1 [] [] [(1, 1, ['D'], [])] false true true true

/-- The position of a site record lies inside the protein's sequence. -/
def recInBounds (p : Protein) (r : SiteRec) : Bool :=
  match r.position with
  | some pos => decide (1 ≤ pos ∧ pos ≤ (p.sequence.length : Int))
  | none => false

/-- The Site built from a complete record (the `getD` defaults are never hit
on records satisfying `fourComplete`). -/
def siteOfRec (r : SiteRec) : Site :=
  { position := r.position.getD 0, site_type := r.site_type.getD [],
    symbol := r.symbol.getD [], value := r.value.getD 0,
    attributes := r.attributes.getD [] }

/-- The protein after appending, in order, exactly the in-bounds records. -/
def addInBounds (p : Protein) (recs : List SiteRec) : Protein :=
  { p with sites := p.sites ++ (recs.filter (recInBounds p)).map siteOfRec }

theorem add_site_ok_of_bounds (p : Protein) (pos : Int) (st sym : PyStr) (v : Rat)
    (ad : AttrDict) (hb : 1 ≤ pos ∧ pos ≤ (p.sequence.length : Int)) :
    p.add_site pos st sym v ad
      = .ok { p with sites := p.sites ++ [⟨pos, st, sym, v, ad⟩] } := by
  simp [Protein.add_site, hb]

theorem add_site_error_of_bounds (p : Protein) (pos : Int) (st sym : PyStr) (v : Rat)
    (ad : AttrDict) (hb : ¬(1 ≤ pos ∧ pos ≤ (p.sequence.length : Int))) :
    p.add_site pos st sym v ad = .error (.proteinExc (.siteBounds pos)) := by
  simp [Protein.add_site, hb]

theorem recInBounds_congr (p q : Protein) (hseq : p.sequence = q.sequence) :
    recInBounds p = recInBounds q := by
  funext r
  cases r.position <;> simp [recInBounds, hseq]

theorem addSitesToProtein_skips_out_of_bounds (vb : Bool) :
    ∀ (recs : List SiteRec) (p : Protein) (w : List Warning),
      (∀ r ∈ recs, fourComplete r = true) →
      (addSitesToProtein false vb p w recs).2 = .ok (addInBounds p recs)
  | [], p, w, _ => by simp [addSitesToProtein, addInBounds]
  | r :: rest, p, w, h => by
    have hr := h r (List.mem_cons_self ..)
    have hrest := fun x hx => h x (List.mem_cons_of_mem r hx)
    simp only [fourComplete, Bool.and_eq_true] at hr
    obtain ⟨pos, hpos⟩ : ∃ x, r.position = some x :=
      Option.isSome_iff_exists.mp hr.1.1.1
    obtain ⟨st, hst⟩ : ∃ x, r.site_type = some x :=
      Option.isSome_iff_exists.mp hr.1.1.2
    obtain ⟨sym, hsym⟩ : ∃ x, r.symbol = some x :=
      Option.isSome_iff_exists.mp hr.1.2
    obtain ⟨v, hv⟩ : ∃ x, r.value = some x := Option.isSome_iff_exists.mp hr.2
    by_cases hb : 1 ≤ pos ∧ pos ≤ (p.sequence.length : Int)
    · have hsite := add_site_ok_of_bounds p pos st sym v (r.attributes.getD []) hb
      simp only [addSitesToProtein, extractSiteParams, hpos, hst, hsym, hv, hsite]
      rw [addSitesToProtein_skips_out_of_bounds vb rest _ w hrest]
      have hrec : recInBounds p r = true := by simp [recInBounds, hpos, hb]
      have hfil : recInBounds { p with sites := p.sites ++ [⟨pos, st, sym, v, r.attributes.getD []⟩] }
          = recInBounds p := recInBounds_congr _ p rfl
      simp only [addInBounds, hfil, List.filter_cons, hrec, if_pos, List.map_cons]
      simp [siteOfRec, hpos, hst, hsym, hv]
    · have hsite := add_site_error_of_bounds p pos st sym v (r.attributes.getD []) hb
      simp only [addSitesToProtein, extractSiteParams, hpos, hst, hsym, hv, hsite,
        Bool.false_eq_true, if_false]
      rw [addSitesToProtein_skips_out_of_bounds vb rest _ _ hrest]
      have hrec : recInBounds p r = false := by simp [recInBounds, hpos, hb]
      simp [addInBounds, List.filter_cons, hrec]

theorem dictLookup_mem {α : Type} :
    ∀ (d : List (PyStr × α)) (q : PyStr) (v : α), dictLookup d q = some v → (q, v) ∈ d
  | [], q, v => by intro h; exact absurd h (by simp [dictLookup])
  | (k, v2) :: rest, q, v => by
    intro h
    simp only [dictLookup] at h
    by_cases hk : k = q
    · rw [if_pos hk] at h
      cases h
      exact hk ▸ List.mem_cons_self ..
    · rw [if_neg hk] at h
      exact List.mem_cons_of_mem _ (dictLookup_mem rest q v h)

theorem addSitesGo_skips_out_of_bounds (sd : SiteDict) (vb : Bool)
    (h : ∀ e ∈ sd, ∀ r ∈ e.2, fourComplete r = true) :
    ∀ (ps : List Protein) (w : List Warning),
      (addSitesGo sd false vb ps w).2
        = .ok (ps.map (fun p =>
            match dictLookup sd p.unique_ID with
            | none => p
            | some recs => addInBounds p recs))
  | [], w => by simp [addSitesGo]
  | p :: ps, w => by
    simp only [addSitesGo, List.map_cons]
    split
    · rename_i heq
      cases hgo : addSitesGo sd false vb ps w with
      | mk w2 r =>
        have hIH := addSitesGo_skips_out_of_bounds sd vb h ps w
        rw [hgo] at hIH
        simp only at hIH
        subst hIH
        try rw [hgo]
        simp
    · rename_i recs heq
      have hmem := dictLookup_mem sd p.unique_ID recs heq
      have hcomplete : ∀ r ∈ recs, fourComplete r = true :=
        fun r hr => h (p.unique_ID, recs) hmem r hr
      cases hres : addSitesToProtein false vb p w recs with
      | mk w2 r =>
        have hok := addSitesToProtein_skips_out_of_bounds vb recs p w hcomplete
        rw [hres] at hok
        simp only at hok
        subst hok
        try rw [hres]
        simp only []
        cases hgo : addSitesGo sd false vb ps w2 with
        | mk w3 r2 =>
          have hIH := addSitesGo_skips_out_of_bounds sd vb h ps w2
          rw [hgo] at hIH
          simp only at hIH
          subst hIH
          try rw [hgo]
          simp

/-- C3 (amended): `add_sites_from_dictionary` exposes `safe`/`verbose`, not
`skip_bad`; with `safe = false` and every record carrying its four required
keys, the load raises no error, and each Protein receives exactly its
in-bounds records — records whose `position` lies outside
`[1, len(sequence)]` leave the site collection untouched. -/
theorem c3_out_of_bounds_sites_skipped_when_not_safe (P : Proteome) (sd : SiteDict)
    (vb : Bool) (h : ∀ e ∈ sd, ∀ r ∈ e.2, fourComplete r = true) :
    (add_sites_from_dictionary P sd false vb).2
      = .ok ⟨P.proteins.map (fun p =>
          match dictLookup sd p.unique_ID with
          | none => p
          | some recs => addInBounds p recs)⟩ := by
  unfold add_sites_from_dictionary
  cases hgo : addSitesGo sd false vb P.proteins [] with
  | mk w r =>
    have := addSitesGo_skips_out_of_bounds sd vb h P.proteins []
    rw [hgo] at this
    simp only at this
    subst this
    rfl

/-- A well-formed site record whose position 999 exceeds the 3-residue
sequence of protein `"P2"`. -/
def oobSiteRec : SiteRec := ⟨some 999, some ['T'], some ['S'], some 1, some []⟩

/-- The one-protein Proteome targeted by `oobSiteDict`. -/
def oobSiteProteome : Proteome := ⟨[⟨['P', '2'], ['A', 'A', 'A'], [], []⟩]⟩

/-- The sites dictionary holding only the out-of-bounds record. -/
def oobSiteDict : SiteDict := [(['P', '2'], [oobSiteRec])]

/-- C3 counterexample: the function has no `skip_bad` parameter; setting its
actual error-tolerance flag to True (`safe = true`, also the default) makes
the out-of-range record print and raise the bounds error instead of being
skipped, so the call does not terminate without a raised error. -/
theorem c3_out_of_bounds_sites_counterexample :
    add_sites_from_dictionary oobSiteProteome oobSiteDict true false
      = ([.siteSkip ['T'] 999 ['P', '2']], .error (.proteinExc (.siteBounds 999))) := by
  rfl

/-- Witness for C3 (amended): with `safe = false` the out-of-range record is
dropped and the Proteome is returned unchanged, with no error. -/
theorem c3_out_of_bounds_sites_skipped_when_not_safe_witness :
    (∀ e ∈ oobSiteDict, ∀ r ∈ e.2, fourComplete r = true) ∧
    (add_sites_from_dictionary oobSiteProteome oobSiteDict false false).2
      = .ok oobSiteProteome := by
  refine ⟨by decide, ?_⟩
  rw [c3_out_of_bounds_sites_skipped_when_not_safe oobSiteProteome oobSiteDict false
    (by decide)]
  exact congrArg Except.ok (by decide)

/-- The Proteome with every domain's attribute mapping erased. -/
def eraseDomainAttrs (P : Proteome) : Proteome :=
  ⟨P.proteins.map (fun p =>
    { p with domains := p.domains.map (fun d => { d with attributes := [] }) })⟩

/-- C10: every line `write_domains` emits consists of exactly the four
required fields of one domain, separated by the delimiter and terminated by a
newline, and the output is unchanged when every attribute mapping is erased —
attributes are never serialized, so they cannot survive a
`write_domains`/`add_domains_from_file` cycle. -/
theorem c10_write_domains_emits_four_fields_only (P : Proteome) (delim : Char)
    (sb : Bool) :
    (∀ line ∈ write_domains P delim sb, ∃ p ∈ P.proteins, ∃ d ∈ p.domains,
        line = p.unique_ID ++ delim :: intRepr d.start ++ delim :: intRepr d.stop
          ++ delim :: d.domain_type ++ ['\n']) ∧
    write_domains (eraseDomainAttrs P) delim sb = write_domains P delim sb := by
  constructor
  · intro line hline
    simp only [write_domains, List.mem_flatten, List.mem_map] at hline
    obtain ⟨ls, ⟨p, hp, hls⟩, hmem⟩ := hline
    subst hls
    obtain ⟨d, hd, hline⟩ := List.mem_map.mp hmem
    exact ⟨p, hp, d, hd, hline.symm⟩
  · simp only [write_domains, eraseDomainAttrs, List.map_map]
    refine congrArg List.flatten (List.map_congr_left ?_)
    intro p hp
    simp [writeDomainLine, List.map_map, Function.comp]

/-- A proteome whose single domain carries a non-empty attribute mapping. -/
def attrDomainProteome : Proteome :=
  ⟨[⟨['P'], ['A', 'A'], [⟨1, 2, ['D'], [(['k'], ['v'])]⟩], []⟩]⟩

/-- Witness for C10 at a concrete proteome whose domain has attributes. -/
theorem c10_write_domains_emits_four_fields_only_witness :
    (['P', '\t', '1', '\t', '2', '\t', 'D', '\n']
        ∈ write_domains attrDomainProteome '\t' false) ∧
    (∃ p ∈ attrDomainProteome.proteins, ∃ d ∈ p.domains,
      ['P', '\t', '1', '\t', '2', '\t', 'D', '\n']
        = p.unique_ID ++ '\t' :: intRepr d.start ++ '\t' :: intRepr d.stop
          ++ '\t' :: d.domain_type ++ ['\n']) := by
  refine ⟨by decide, ?_⟩
  exact (c10_write_domains_emits_four_fields_only attrDomainProteome '\t' false).1
    ['P', '\t', '1', '\t', '2', '\t', 'D', '\n'] (by decide)

/-! ## Round-trip support: decimal rendering parses back -/

theorem digitChar_spec (n : Nat) (h : n < 10) :
    digitVal (digitChar n) = some n ∧ isPySpace (digitChar n) = false ∧
    digitChar n ≠ '\t' ∧ digitChar n ≠ '\n' ∧ digitChar n ≠ '-' ∧
    digitChar n ≠ '+' ∧ digitChar n ≠ ':' := by
  interval_cases n <;> decide

theorem natDigits_ne_nil (n : Nat) : natDigits n ≠ [] := by
  rw [natDigits_eq]
  split <;> simp

theorem mem_natDigits (n : Nat) : ∀ c ∈ natDigits n, ∃ m, m < 10 ∧ c = digitChar m := by
  induction n using Nat.strong_induction_on with
  | _ n ih =>
    rw [natDigits_eq]
    split
    · rename_i h
      intro c hc
      simp only [List.mem_singleton] at hc
      exact ⟨n, h, hc⟩
    · rename_i h
      intro c hc
      rcases List.mem_append.mp hc with hc | hc
      · exact ih (n / 10) (Nat.div_lt_self (by omega) (by omega)) c hc
      · simp only [List.mem_singleton] at hc
        exact ⟨n % 10, Nat.mod_lt _ (by omega), hc⟩

theorem digitsValAux_append (a : Nat) (xs ys : PyStr) :
    digitsValAux a (xs ++ ys)
      = match digitsValAux a xs with
        | some b => digitsValAux b ys
        | none => none := by
  induction xs generalizing a with
  | nil => simp [digitsValAux]
  | cons c xs ih =>
    cases hd : digitVal c with
    | none => simp [digitsValAux, hd]
    | some v => simp [digitsValAux, hd, ih]

theorem digitsValAux_natDigits (n : Nat) : ∀ (a : Nat),
    digitsValAux a (natDigits n) = some (a * 10 ^ (natDigits n).length + n) := by
  induction n using Nat.strong_induction_on with
  | _ n ih =>
    intro a
    rw [natDigits_eq]
    split
    · rename_i h
      simp [digitsValAux, (digitChar_spec n h).1]
    · rename_i h
      rw [digitsValAux_append, ih (n / 10) (Nat.div_lt_self (by omega) (by omega)) a]
      simp only [digitsValAux, (digitChar_spec (n % 10) (Nat.mod_lt _ (by omega))).1,
        List.length_append, List.length_singleton]
      congr 1
      have hdm : n / 10 * 10 + n % 10 = n := by omega
      generalize (natDigits (n / 10)).length = L
      rw [pow_succ]
      calc (a * 10 ^ L + n / 10) * 10 + n % 10
          = a * (10 ^ L * 10) + (n / 10 * 10 + n % 10) := by ring
        _ = a * (10 ^ L * 10) + n := by rw [hdm]

theorem digitsVal_natDigits (n : Nat) : digitsVal (natDigits n) = some n := by
  cases hnd : natDigits n with
  | nil => exact absurd hnd (natDigits_ne_nil n)
  | cons c cs =>
    have h := digitsValAux_natDigits n 0
    rw [hnd] at h
    simpa [digitsVal] using h

theorem pyInt?_intRepr (n : Int) : pyInt? (intRepr n) = some n := by
  unfold intRepr
  split
  · rename_i h
    simp only [pyInt?, if_pos rfl, digitsVal_natDigits]
    exact congrArg some (by omega : -((n.natAbs : Nat) : Int) = n)
  · rename_i h
    cases hnd : natDigits n.natAbs with
    | nil => exact absurd hnd (natDigits_ne_nil _)
    | cons c cs =>
      obtain ⟨m, hm, hc⟩ := mem_natDigits n.natAbs c (hnd ▸ List.mem_cons_self ..)
      have spec := digitChar_spec m hm
      simp only [pyInt?, if_neg (hc ▸ spec.2.2.2.2.1), if_neg (hc ▸ spec.2.2.2.2.2.1)]
      rw [← hnd, digitsVal_natDigits]
      exact congrArg some (by omega : ((n.natAbs : Nat) : Int) = n)

theorem dropWhile_all_false (p : Char → Bool) :
    ∀ (s : PyStr), (∀ c ∈ s, p c = false) → s.dropWhile p = s
  | [], _ => rfl
  | c :: cs, h => by
    simp [List.dropWhile_cons, h c (List.mem_cons_self ..)]

theorem pyStrip_all_nonspace (s : PyStr) (h : ∀ c ∈ s, isPySpace c = false) :
    pyStrip s = s := by
  unfold pyStrip
  rw [dropWhile_all_false _ s h,
    dropWhile_all_false _ s.reverse (fun c hc => h c (List.mem_reverse.mp hc)),
    List.reverse_reverse]

theorem isPySpace_intRepr (n : Int) : ∀ c ∈ intRepr n, isPySpace c = false := by
  intro c hc
  unfold intRepr at hc
  split at hc
  · rcases List.mem_cons.mp hc with h | h
    · subst h; decide
    · obtain ⟨m, hm, hcm⟩ := mem_natDigits _ c h
      exact hcm ▸ (digitChar_spec m hm).2.1
  · obtain ⟨m, hm, hcm⟩ := mem_natDigits _ c hc
    exact hcm ▸ (digitChar_spec m hm).2.1

theorem pyStrip_intRepr (n : Int) : pyStrip (intRepr n) = intRepr n :=
  pyStrip_all_nonspace _ (isPySpace_intRepr n)

theorem tab_not_mem_intRepr (n : Int) : '\t' ∉ intRepr n := by
  intro hmem
  have := isPySpace_intRepr n '\t' hmem
  exact absurd this (by decide)

theorem pyStrip_front (s : PyStr) (h : pyStrip s = s) : s.dropWhile isPySpace = s := by
  have h1 : (s.dropWhile isPySpace).length ≤ s.length :=
    (List.dropWhile_suffix isPySpace).length_le
  have h2 : (pyStrip s).length ≤ (s.dropWhile isPySpace).length := by
    unfold pyStrip
    simpa using (List.dropWhile_suffix (l := (s.dropWhile isPySpace).reverse) isPySpace).length_le
  rw [h] at h2
  exact (List.dropWhile_suffix isPySpace).sublist.eq_of_length_le h2

theorem pyStrip_back (s : PyStr) (h : pyStrip s = s) :
    s.reverse.dropWhile isPySpace = s.reverse := by
  have hf := pyStrip_front s h
  unfold pyStrip at h
  rw [hf] at h
  have h2 := congrArg List.reverse h
  rwa [List.reverse_reverse] at h2

theorem pyStrip_append_newline (s : PyStr) (h : pyStrip s = s) :
    pyStrip (s ++ ['\n']) = s := by
  cases s with
  | nil => decide
  | cons c cs =>
    have hf := pyStrip_front (c :: cs) h
    have hb := pyStrip_back (c :: cs) h
    have hc : isPySpace c = false := by
      by_contra hcc
      rw [List.dropWhile_cons, if_pos (by simpa using hcc)] at hf
      have hlen := congrArg List.length hf
      have hle := (List.dropWhile_suffix (l := cs) isPySpace).length_le
      simp at hlen
      omega
    unfold pyStrip
    have e1 : (c :: cs) ++ ['\n'] = c :: (cs ++ ['\n']) := rfl
    rw [e1, List.dropWhile_cons, if_neg (by simp [hc])]
    have e2 : (c :: (cs ++ ['\n'])).reverse = '\n' :: (c :: cs).reverse := by
      simp
    rw [e2, List.dropWhile_cons, if_pos (by decide), hb, List.reverse_reverse]

theorem pySplitAux_no_delim (d : Char) :
    ∀ (s : PyStr) (cur : PyStr), d ∉ s → pySplitAux d cur s = [cur.reverse ++ s]
  | [], cur, _ => by simp [pySplitAux]
  | c :: s, cur, h => by
    have hc : ¬(c = d) := fun hcd => h (by rw [hcd]; exact List.mem_cons_self ..)
    simp only [pySplitAux, if_neg hc]
    rw [pySplitAux_no_delim d s (c :: cur) (fun hm => h (List.mem_cons_of_mem _ hm))]
    simp

theorem pySplitAux_seg (d : Char) :
    ∀ (a : PyStr) (cur rest : PyStr), d ∉ a →
      pySplitAux d cur (a ++ d :: rest) = (cur.reverse ++ a) :: pySplitAux d [] rest
  | [], cur, rest, _ => by simp [pySplitAux]
  | c :: a, cur, rest, h => by
    have hc : ¬(c = d) := fun hcd => h (by rw [hcd]; exact List.mem_cons_self ..)
    simp only [List.cons_append, pySplitAux, if_neg hc, List.append_eq]
    rw [pySplitAux_seg d a (c :: cur) rest (fun hm => h (List.mem_cons_of_mem _ hm))]
    simp

theorem pySplit_writeDomainLine (uid : PyStr) (d : Domain)
    (huid : '\t' ∉ uid) (hdt : '\t' ∉ d.domain_type) :
    pySplit '\t' (writeDomainLine '\t' uid d)
      = [uid, intRepr d.start, intRepr d.stop, d.domain_type ++ ['\n']] := by
  unfold pySplit writeDomainLine
  simp only [List.append_assoc, List.cons_append]
  rw [pySplitAux_seg '\t' uid [] _ huid,
    pySplitAux_seg '\t' (intRepr d.start) [] _ (tab_not_mem_intRepr _),
    pySplitAux_seg '\t' (intRepr d.stop) [] _ (tab_not_mem_intRepr _),
    pySplitAux_no_delim '\t' (d.domain_type ++ ['\n']) [] (by simp [hdt])]
  simp

/-! ## The Domains reader on a file written by `write_domains` -/

/-- A string safe for tab-delimited serialization: strip-invariant and free of
tabs and newlines. -/
def cleanStr (s : PyStr) : Prop := pyStrip s = s ∧ '\t' ∉ s ∧ '\n' ∉ s

/-- Hypotheses of the round-trip theorem: unique_IDs pairwise distinct, all
serialized strings clean, and every domain interval inside its protein's
sequence bounds. -/
def cleanProteome (P : Proteome) : Prop :=
  (P.proteins.map Protein.unique_ID).Nodup ∧
  ∀ p ∈ P.proteins, cleanStr p.unique_ID ∧
    ∀ d ∈ p.domains, cleanStr d.domain_type ∧
      1 ≤ d.start ∧ d.start ≤ d.stop ∧ d.stop ≤ (p.sequence.length : Int)

/-- The record the Domains reader produces for one written domain. -/
def domRecOf (d : Domain) : DomainRec := (d.start, d.stop, d.domain_type, [])

/-- The reader's grouped dictionary for a written proteome: one entry per
protein that has at least one domain, in proteome order. -/
def expectedOf : List Protein → DomainDict
  | [] => []
  | p :: ps =>
    if p.domains = [] then expectedOf ps
    else (p.unique_ID, p.domains.map domRecOf) :: expectedOf ps

theorem domainsAux_step (fn uid : PyStr) (d : Domain) (lc : Nat) (D : DomainDict)
    (rest : List PyStr) (huid : cleanStr uid) (hdt : cleanStr d.domain_type) :
    domainsAux fn '\t' lc D (writeDomainLine '\t' uid d :: rest)
      = domainsAux fn '\t' (lc + 1) (groupAppend D uid (domRecOf d)) rest := by
  obtain ⟨hu1, hu2, hu3⟩ := huid
  obtain ⟨hd1, hd2, hd3⟩ := hdt
  have hsplit := pySplit_writeDomainLine uid d hu2 hd2
  have hreq : requiredDomainFields (pySplit '\t' (writeDomainLine '\t' uid d))
      = some (uid, d.start, d.stop, d.domain_type) := by
    rw [hsplit]
    simp only [requiredDomainFields, pyStrip_intRepr, pyInt?_intRepr, hu1,
      pyStrip_append_newline d.domain_type hd1]
  have hlen : (pySplit '\t' (writeDomainLine '\t' uid d)).length = 4 := by
    rw [hsplit]; rfl
  simp only [domainsAux, hreq, hlen]
  norm_num [domRecOf]

theorem domainsAux_lines_of_domains (fn uid : PyStr) (huid : cleanStr uid) :
    ∀ (ds : List Domain), (∀ d ∈ ds, cleanStr d.domain_type) →
      ∀ (lc : Nat) (D : DomainDict) (rest : List PyStr),
        domainsAux fn '\t' lc D (ds.map (writeDomainLine '\t' uid) ++ rest)
          = domainsAux fn '\t' (lc + ds.length)
              (ds.foldl (fun D d => groupAppend D uid (domRecOf d)) D) rest
  | [], _, lc, D, rest => by simp
  | d :: ds, h, lc, D, rest => by
    simp only [List.map_cons, List.cons_append, List.foldl_cons]
    rw [domainsAux_step fn uid d lc D _ huid (h d (List.mem_cons_self ..))]
    rw [domainsAux_lines_of_domains fn uid huid ds
      (fun x hx => h x (List.mem_cons_of_mem _ hx)) (lc + 1)
      (groupAppend D uid (domRecOf d)) rest]
    congr 1
    simp [List.length_cons]
    omega

theorem dictLookup_none_of_forall {α : Type} :
    ∀ (D : List (PyStr × α)) (q : PyStr), (∀ kv ∈ D, kv.1 ≠ q) →
      dictLookup D q = none
  | [], _, _ => rfl
  | (k, v) :: D, q, h => by
    simp only [dictLookup, if_neg (h (k, v) (List.mem_cons_self ..))]
    exact dictLookup_none_of_forall D q (fun kv hkv => h kv (List.mem_cons_of_mem _ hkv))

theorem dictLookup_none_forall {α : Type} :
    ∀ (D : List (PyStr × α)) (q : PyStr), dictLookup D q = none →
      ∀ kv ∈ D, kv.1 ≠ q
  | [], _, _ => by simp
  | (k, v) :: D, q, h => by
    simp only [dictLookup] at h
    by_cases hk : k = q
    · rw [if_pos hk] at h; exact absurd h (by simp)
    · rw [if_neg hk] at h
      intro kv hkv
      rcases List.mem_cons.mp hkv with hkv | hkv
      · subst hkv; exact hk
      · exact dictLookup_none_forall D q h kv hkv

theorem dictLookup_append_right {α : Type} :
    ∀ (A B : List (PyStr × α)) (q : PyStr), dictLookup A q = none →
      dictLookup (A ++ B) q = dictLookup B q
  | [], B, q, _ => rfl
  | (k, v) :: A, B, q, h => by
    simp only [dictLookup] at h ⊢
    by_cases hk : k = q
    · rw [if_pos hk] at h; exact absurd h (by simp)
    · rw [if_neg hk] at h ⊢
      exact dictLookup_append_right A B q h

theorem groupAppend_existing (uid : PyStr) (r : DomainRec) (D : DomainDict)
    (rs : List DomainRec) (h : ∀ kv ∈ D, kv.1 ≠ uid) :
    groupAppend (D ++ [(uid, rs)]) uid r = D ++ [(uid, rs ++ [r])] := by
  unfold groupAppend
  have hD : dictLookup D uid = none := dictLookup_none_of_forall D uid h
  have hlk : dictLookup (D ++ [(uid, rs)]) uid = some rs := by
    rw [dictLookup_append_right D _ uid hD]
    simp [dictLookup]
  rw [if_pos (by simp [hlk])]
  rw [List.map_append]
  congr 1
  · calc List.map (fun kv => if kv.1 = uid then (kv.1, kv.2 ++ [r]) else kv) D
        = List.map id D :=
          List.map_congr_left (fun kv hkv => by rw [if_neg (h kv hkv)]; rfl)
      _ = D := List.map_id D
  · simp

theorem foldl_groupAppend_last (uid : PyStr) :
    ∀ (ds : List Domain) (D : DomainDict) (rs : List DomainRec),
      (∀ kv ∈ D, kv.1 ≠ uid) →
      ds.foldl (fun D d => groupAppend D uid (domRecOf d)) (D ++ [(uid, rs)])
        = D ++ [(uid, rs ++ ds.map domRecOf)]
  | [], D, rs, _ => by simp
  | d :: ds, D, rs, h => by
    simp only [List.foldl_cons]
    rw [groupAppend_existing uid (domRecOf d) D rs h,
      foldl_groupAppend_last uid ds D (rs ++ [domRecOf d]) h]
    simp

theorem foldl_groupAppend_fresh (uid : PyStr) (ds : List Domain) (D : DomainDict)
    (h : ∀ kv ∈ D, kv.1 ≠ uid) (hne : ds ≠ []) :
    ds.foldl (fun D d => groupAppend D uid (domRecOf d)) D
      = D ++ [(uid, ds.map domRecOf)] := by
  cases ds with
  | nil => exact absurd rfl hne
  | cons d ds =>
    simp only [List.foldl_cons]
    have hga : groupAppend D uid (domRecOf d) = D ++ [(uid, [domRecOf d])] := by
      unfold groupAppend
      rw [if_neg (by rw [dictLookup_none_of_forall D uid h]; simp)]
    rw [hga, foldl_groupAppend_last uid ds D [domRecOf d] h]
    simp

theorem domainsAux_whole (fn : PyStr) :
    ∀ (ps : List Protein),
      (∀ p ∈ ps, cleanStr p.unique_ID ∧ ∀ d ∈ p.domains, cleanStr d.domain_type) →
      (ps.map Protein.unique_ID).Nodup →
      ∀ (lc : Nat) (D : DomainDict),
        (∀ p ∈ ps, dictLookup D p.unique_ID = none) →
        domainsAux fn '\t' lc D
            ((ps.map (fun p => p.domains.map (writeDomainLine '\t' p.unique_ID))).flatten)
          = .ok (D ++ expectedOf ps)
  | [], _, _, lc, D, _ => by simp [domainsAux, expectedOf]
  | p :: ps, h, hnd, lc, D, hfresh => by
    have hp := h p (List.mem_cons_self ..)
    have hps := fun x hx => h x (List.mem_cons_of_mem _ hx)
    have hndtail : (ps.map Protein.unique_ID).Nodup := (List.nodup_cons.mp hnd).2
    have hhead : p.unique_ID ∉ ps.map Protein.unique_ID := (List.nodup_cons.mp hnd).1
    simp only [List.map_cons, List.flatten_cons]
    rw [domainsAux_lines_of_domains fn p.unique_ID hp.1 p.domains hp.2 lc D _]
    by_cases hds : p.domains = []
    · rw [hds]
      simp only [List.foldl_nil]
      rw [domainsAux_whole fn ps hps hndtail _ D
        (fun x hx => hfresh x (List.mem_cons_of_mem _ hx))]
      rw [show expectedOf (p :: ps) = expectedOf ps from by
        simp [expectedOf, hds]]
    · have hDkeys := dictLookup_none_forall D p.unique_ID
        (hfresh p (List.mem_cons_self ..))
      rw [foldl_groupAppend_fresh p.unique_ID p.domains D hDkeys hds]
      have hfresh2 : ∀ x ∈ ps,
          dictLookup (D ++ [(p.unique_ID, p.domains.map domRecOf)]) x.unique_ID
            = none := by
        intro x hx
        rw [dictLookup_append_right D _ _ (hfresh x (List.mem_cons_of_mem _ hx))]
        have hne : p.unique_ID ≠ x.unique_ID := by
          intro he
          exact hhead (he ▸ List.mem_map_of_mem Protein.unique_ID hx)
        simp [dictLookup, hne]
      rw [domainsAux_whole fn ps hps hndtail _ _ hfresh2]
      rw [show expectedOf (p :: ps)
          = (p.unique_ID, p.domains.map domRecOf) :: expectedOf ps from by
        simp [expectedOf, hds]]
      simp

theorem reader_of_written (P : Proteome) (h : cleanProteome P) (fn : PyStr)
    (sb : Bool) :
    _DomainsInterface fn (write_domains P '\t' sb) '\t'
      = .ok (expectedOf P.proteins) := by
  unfold _DomainsInterface write_domains
  rw [if_neg (by decide)]
  have := domainsAux_whole fn P.proteins (fun p hp => (h.2 p hp).imp_right
    (fun hd d hdd => ((hd d hdd).1))) h.1 1 [] (fun p _ => rfl)
  simpa using this

/-! ## The bulk loader on the reader's dictionary -/

theorem expectedOf_keys :
    ∀ (ps : List Protein) (kv : PyStr × List DomainRec), kv ∈ expectedOf ps →
      kv.1 ∈ ps.map Protein.unique_ID
  | [], kv, h => by simp [expectedOf] at h
  | p :: ps, kv, h => by
    simp only [expectedOf] at h
    by_cases hds : p.domains = []
    · rw [if_pos hds] at h
      exact List.mem_cons_of_mem _ (expectedOf_keys ps kv h)
    · rw [if_neg hds] at h
      rcases List.mem_cons.mp h with h | h
      · subst h; simp
      · exact List.mem_cons_of_mem _ (expectedOf_keys ps kv h)

theorem lookup_expectedOf :
    ∀ (ps : List Protein), (ps.map Protein.unique_ID).Nodup →
      ∀ p ∈ ps, dictLookup (expectedOf ps) p.unique_ID
        = if p.domains = [] then none else some (p.domains.map domRecOf)
  | [], _, p, hp => absurd hp (by simp)
  | q :: ps, hnd, p, hp => by
    have hndtail := (List.nodup_cons.mp hnd).2
    have hhead := (List.nodup_cons.mp hnd).1
    rcases List.mem_cons.mp hp with hp | hp
    · subst hp
      by_cases hds : p.domains = []
      · rw [if_pos hds]
        simp only [expectedOf, if_pos hds]
        apply dictLookup_none_of_forall
        intro kv hkv heq
        exact hhead (heq ▸ expectedOf_keys ps kv hkv)
      · rw [if_neg hds]
        simp [expectedOf, if_neg hds, dictLookup]
    · have hne : q.unique_ID ≠ p.unique_ID := by
        intro he
        exact hhead (he ▸ List.mem_map_of_mem Protein.unique_ID hp)
      simp only [expectedOf]
      by_cases hds : q.domains = []
      · rw [if_pos hds]
        exact lookup_expectedOf ps hndtail p hp
      · rw [if_neg hds]
        simp only [dictLookup, if_neg hne]
        exact lookup_expectedOf ps hndtail p hp

/-- A Protein entity with the same identity and sequence and no annotations. -/
def freshProtein (p : Protein) : Protein := { p with domains := [], sites := [] }

/-- The fresh Proteome of the round trip: same unique_IDs and sequences,
no annotations. -/
def freshClone (P : Proteome) : Proteome := ⟨P.proteins.map freshProtein⟩

/-- The Domain built from an intermediate record. -/
def domOfRec (r : DomainRec) : Domain := ⟨r.1, r.2.1, r.2.2.1, r.2.2.2⟩

/-- A domain with its attribute mapping erased. -/
def eraseAttr (d : Domain) : Domain := { d with attributes := [] }

theorem addDomainsToProtein_all_ok (a s k v : Bool) :
    ∀ (recs : List DomainRec) (p : Protein) (w : List Warning),
      (∀ r ∈ recs, 1 ≤ r.1 ∧ r.1 ≤ r.2.1 ∧ r.2.1 ≤ (p.sequence.length : Int)) →
      addDomainsToProtein a s k v p w recs
        = (w, .ok { p with domains := p.domains ++ recs.map domOfRec })
  | [], p, w, _ => by simp [addDomainsToProtein]
  | (start, stop, dtype, ad) :: rest, p, w, h => by
    have hb := h (start, stop, dtype, ad) (List.mem_cons_self ..)
    have hok : p.add_domain start stop dtype ad s a
        = .ok { p with domains := p.domains ++ [⟨start, stop, dtype, ad⟩] } := by
      simp only [Protein.add_domain]
      rw [if_pos ⟨hb.1, hb.2.1, hb.2.2⟩]
    simp only [addDomainsToProtein, hok]
    rw [addDomainsToProtein_all_ok a s k v rest
      { p with domains := p.domains ++ [⟨start, stop, dtype, ad⟩] } w
      (fun r hr => h r (List.mem_cons_of_mem _ hr))]
    simp [domOfRec, List.append_assoc]

theorem domOfRec_domRecOf (d : Domain) : domOfRec (domRecOf d) = eraseAttr d := rfl

theorem addDomainsGo_fresh (dd : DomainDict) (a s k v : Bool) :
    ∀ (ps : List Protein),
      (∀ p ∈ ps, dictLookup dd p.unique_ID
          = if p.domains = [] then none else some (p.domains.map domRecOf)) →
      (∀ p ∈ ps, ∀ d ∈ p.domains,
        1 ≤ d.start ∧ d.start ≤ d.stop ∧ d.stop ≤ (p.sequence.length : Int)) →
      ∀ (w : List Warning),
        addDomainsGo dd a s k v (ps.map freshProtein) w
          = (w, .ok (ps.map (fun p =>
              { p with domains := p.domains.map eraseAttr, sites := [] })))
  | [], _, _, w => by simp [addDomainsGo]
  | p :: ps, hlk, hbd, w => by
    have hp := hlk p (List.mem_cons_self ..)
    have hpb := hbd p (List.mem_cons_self ..)
    have hlk2 := fun x hx => hlk x (List.mem_cons_of_mem _ hx)
    have hbd2 := fun x hx => hbd x (List.mem_cons_of_mem _ hx)
    simp only [List.map_cons, addDomainsGo]
    by_cases hds : p.domains = []
    · rw [if_pos hds] at hp
      rw [show dictLookup dd (freshProtein p).unique_ID
          = dictLookup dd p.unique_ID from rfl, hp]
      simp only []
      rw [addDomainsGo_fresh dd a s k v ps hlk2 hbd2 w]
      simp only []
      congr 2
      simp [freshProtein, hds]
    · rw [if_neg hds] at hp
      rw [show dictLookup dd (freshProtein p).unique_ID
          = dictLookup dd p.unique_ID from rfl, hp]
      simp only []
      rw [addDomainsToProtein_all_ok a s k v (p.domains.map domRecOf)
        (freshProtein p) w
        (by
          intro r hr
          obtain ⟨d, hd, rfl⟩ := List.mem_map.mp hr
          exact hpb d hd)]
      simp only []
      rw [addDomainsGo_fresh dd a s k v ps hlk2 hbd2 w]
      simp only []
      congr 2
      simp [freshProtein, List.map_map, Function.comp, domOfRec_domRecOf]

/-- The `(unique_ID, start, end, domain_type)` tuples of one protein. -/
def proteinTuples (p : Protein) : List (PyStr × Int × Int × PyStr) :=
  p.domains.map (fun d => (p.unique_ID, d.start, d.stop, d.domain_type))

/-- All `(unique_ID, start, end, domain_type)` tuples of a proteome, in
iteration order. -/
def domainTuples (P : Proteome) : List (PyStr × Int × Int × PyStr) :=
  (P.proteins.map proteinTuples).flatten

/-- C1 (amended): for every Proteome whose Proteins carry only in-bounds
Domains, whose unique_IDs and domain_types are strip-invariant and free of
tab and newline characters, and whose unique_IDs are pairwise distinct,
`write_domains` followed by `add_domains_from_file` on the fresh clone
succeeds with no warnings, and the resulting Proteome carries the same
`(unique_ID, start, end, domain_type)` tuples (hence the same set) — only
the attribute mappings are lost. -/
theorem c1_domains_round_trip (P : Proteome) (h : cleanProteome P) (fn : PyStr)
    (a s k v sb : Bool) :
    add_domains_from_file (freshClone P) fn (write_domains P '\t' sb) a '\t' s k v
      = ([], .ok ⟨P.proteins.map (fun p =>
          { p with domains := p.domains.map eraseAttr, sites := [] })⟩) ∧
    (∀ t, t ∈ domainTuples ⟨P.proteins.map (fun p =>
          { p with domains := p.domains.map eraseAttr, sites := [] })⟩
        ↔ t ∈ domainTuples P) := by
  have heq : domainTuples ⟨P.proteins.map (fun p =>
      { p with domains := p.domains.map eraseAttr, sites := [] })⟩
      = domainTuples P := by
    unfold domainTuples
    simp only [List.map_map]
    refine congrArg List.flatten (List.map_congr_left ?_)
    intro p hp
    simp [Function.comp, proteinTuples, eraseAttr, List.map_map]
  constructor
  · unfold add_domains_from_file
    rw [reader_of_written P h fn sb]
    simp only []
    unfold add_domains_from_dictionary freshClone
    rw [addDomainsGo_fresh (expectedOf P.proteins) a s k v P.proteins
      (fun p hp => lookup_expectedOf P.proteins h.1 p hp)
      (fun p hp d hd => ((h.2 p hp).2 d hd).2) []]
  · intro t
    rw [heq]

/-- The round-trip property exactly as C1 states it, at the default flags. -/
def domainsRoundTrip (P : Proteome) : Prop :=
  ∃ w Q, add_domains_from_file (freshClone P) [] (write_domains P '\t' false)
      false '\t' true true true = (w, .ok Q) ∧
    ∀ t, t ∈ domainTuples Q ↔ t ∈ domainTuples P

/-- A proteome with only in-bounds domains whose `domain_type` contains the
tab delimiter. -/
def tabTypeProteome : Proteome :=
  ⟨[⟨['P'], ['A', 'A', 'A', 'A'], [⟨1, 2, ['A', '\t', 'B'], []⟩], []⟩]⟩

/-- C1 counterexample: `tabTypeProteome` carries only in-bounds Domains, yet
the written file re-reads with five fields on its line, the fifth failing
key:value parsing, so `add_domains_from_file` raises and no tuple set is
reproduced — the claim needs delimiter/newline-free, strip-invariant
unique_IDs and domain_types. -/
theorem c1_domains_round_trip_counterexample :
    (∀ p ∈ tabTypeProteome.proteins, ∀ d ∈ p.domains,
      1 ≤ d.start ∧ d.start ≤ d.stop ∧ d.stop ≤ (p.sequence.length : Int)) ∧
    ¬ domainsRoundTrip tabTypeProteome := by
  refine ⟨by decide, ?_⟩
  rintro ⟨w, Q, hQ, -⟩
  have hval : add_domains_from_file (freshClone tabTypeProteome) []
      (write_domains tabTypeProteome '\t' false) false '\t' true true true
      = ([], .error (.interfaceExc (.attrFail [] 1))) := by rfl
  rw [hval] at hQ
  exact absurd (congrArg Prod.snd hQ).symm (by simp)

/-- A clean two-protein proteome, one domain carrying attributes. -/
def cleanExampleProteome : Proteome :=
  ⟨[⟨['P'], ['A', 'A', 'A', 'A'],
      [⟨1, 2, ['D'], [(['k'], ['v'])]⟩, ⟨2, 4, ['E'], []⟩], []⟩,
    ⟨['Q'], ['A', 'A', 'A', 'A', 'A'], [⟨5, 5, ['F'], []⟩], []⟩]⟩

/-- Witness for C1 (amended) at a concrete clean proteome. -/
theorem c1_domains_round_trip_witness :
    cleanProteome cleanExampleProteome ∧
    add_domains_from_file (freshClone cleanExampleProteome) []
        (write_domains cleanExampleProteome '\t' false) false '\t' true true true
      = ([], .ok ⟨cleanExampleProteome.proteins.map (fun p =>
          { p with domains := p.domains.map eraseAttr, sites := [] })⟩) := by
  have hclean : cleanProteome cleanExampleProteome := by
    unfold cleanProteome cleanStr
    decide
  exact ⟨hclean,
    (c1_domains_round_trip cleanExampleProteome hclean [] false true true true
      false).1⟩

end Shephard
